import Mathlib

/-!
Shallow embedding of the classification and sentiment core of the
Ai-Customer-Support repository (src/chatbot/ticket_classifier.py,
src/chatbot/sentiment_analyzer.py, src/chatbot/ai_engine.py,
src/chatbot/models.py), together with theorems settling the frozen
claims about it.

Modelling conventions:
* Python floats are modelled as rationals; all arithmetic is exact.
* Text is modelled as strings; the Python substring test x in y is
  modelled by infix containment on the underlying character lists.
* The external ML backends (the zero-shot pipeline, the TF-IDF +
  RandomForest model, the transformer sentiment pipeline, the VADER
  and TextBlob scorers) are modelled as oracle fields of a backend
  state: an absent backend is none (the attribute is None), a call
  that raises is Except.error, a successful call is Except.ok with
  the values the library would return.
-/

namespace AiSupport

/-- Lowercased character list of a string, modelling Python str.lower(). -/
def lowerChars (s : String) : List Char := s.data.map Char.toLower

/-- Decides whether the first list is a leading segment of the second. -/
def isLeadingSeg : List Char → List Char → Bool
  | [], _ => true
  | _ :: _, [] => false
  | a :: as, b :: bs => a = b && isLeadingSeg as bs

/-- Decides whether needle occurs contiguously inside hay, modelling the
Python substring operator on strings. -/
def isInfixChars (needle : List Char) (hay : List Char) : Bool :=
  match hay with
  | [] => needle.isEmpty
  | _ :: t => isLeadingSeg needle hay || isInfixChars needle t

/-- First maximal entry of an association list, modelling the Python
expression max(d, key=d.get), which keeps the earliest key on ties. -/
def argmaxFirst {β : Type} [LinearOrder β] : List (String × β) → Option (String × β)
  | [] => none
  | x :: xs => some (xs.foldl (fun best y => if best.2 < y.2 then y else best) x)

/-- Stable insertion of one entry into a list sorted by descending value:
the entry goes in front of the first strictly smaller value, after any
equal values already present. -/
def insDesc {β : Type} [LinearOrder β] (a : String × β) :
    List (String × β) → List (String × β)
  | [] => [a]
  | b :: rest => if b.2 ≤ a.2 then a :: b :: rest else b :: insDesc a rest

/-- Stable sort by descending value, modelling the Python expression
sorted(d.items(), key=lambda kv: kv[1], reverse=True). -/
def sortDesc {β : Type} [LinearOrder β] (l : List (String × β)) :
    List (String × β) :=
  l.foldr insDesc []

/-- Adds v to the entry of key k in an association list, appending a new
entry when the key is absent; this models the Python dictionary update
d[k] = d.get(k, 0.0) + v. -/
def upsert (k : String) (v : ℚ) : List (String × ℚ) → List (String × ℚ)
  | [] => [(k, v)]
  | p :: rest => if p.1 = k then (p.1, p.2 + v) :: rest else p :: upsert k v rest

/-- Value stored under key k, 0 when the key is absent, modelling the
Python expression d.get(k, 0.0). -/
def dictGet (k : String) (l : List (String × ℚ)) : ℚ :=
  ((l.find? (fun p => p.1 == k)).map Prod.snd).getD 0

/-- Category list from TicketClassifier.__init__, the default used when the
TICKET_CATEGORIES setting is absent. -/
def defaultCategories : List String :=
  ["Technical Issue", "Billing", "Account Management", "Product Inquiry",
   "Feature Request", "Bug Report", "General Support"]

/-- Result of a category classification, the dict built by the
_classify_with_* methods of TicketClassifier. -/
structure CatResult where
  category : String
  confidence : ℚ
  method : String
  topPredictions : List (String × ℚ)
deriving DecidableEq, Repr

/-- Keyword table of TicketClassifier._classify_with_rules. -/
def categoryKeywordMap : List (String × List String) :=
  [("Technical Issue",
    ["error", "bug", "crash", "not working", "broken", "issue", "problem",
     "failed", "failure", "malfunction", "glitch", "freeze", "hang", "slow",
     "timeout", "connection"]),
   ("Billing",
    ["payment", "invoice", "bill", "charge", "refund", "subscription",
     "pricing", "cost", "fee", "credit card", "transaction", "receipt",
     "overcharge", "discount", "upgrade"]),
   ("Account Management",
    ["account", "login", "password", "access", "profile", "settings",
     "username", "authentication", "verification", "reset", "permissions",
     "two-factor", "sign in"]),
   ("Product Inquiry",
    ["how to", "feature", "what is", "explain", "information about",
     "does it", "can i", "is it possible", "functionality", "capability",
     "specification", "documentation"]),
   ("Feature Request",
    ["request", "add", "improve", "enhancement", "suggestion", "would like",
     "wish", "hoping", "could you add", "new feature", "implement",
     "integrate"]),
   ("Bug Report",
    ["bug", "error message", "wrong", "incorrect", "unexpected", "should",
     "supposed to", "reproducible", "steps to reproduce", "console error",
     "exception"]),
   ("General Support",
    ["help", "support", "question", "ask", "need", "assistance", "guidance",
     "advice", "recommend", "best practice"])]

/-- Keyword score of one category over the lowercased text: each keyword
occurring in the text adds 2 when it also occurs between blanks in the
blank-padded text and 1 otherwise, modelling the loop of
_classify_with_rules. -/
def catKwScore (textLower : List Char) (kws : List String) : ℕ :=
  kws.foldl
    (fun score kw =>
      if isInfixChars kw.data textLower then
        score +
          (if isInfixChars (' ' :: kw.data ++ [' ']) (' ' :: textLower ++ [' '])
            then 2 else 1)
      else score)
    0

/-- Scores dict of _classify_with_rules, in the insertion order of the
keyword table. -/
def rulesScores (text : String) : List (String × ℕ) :=
  categoryKeywordMap.map (fun ckw => (ckw.1, catKwScore (lowerChars text) ckw.2))

/-- Embedding of TicketClassifier._classify_with_rules. -/
def classifyWithRules (text : String) : CatResult :=
  let scores := rulesScores text
  if ((scores.map Prod.snd).foldr max 0) = 0 then
    { category := "General Support", confidence := 1/2, method := "rules",
      topPredictions := [("General Support", 1/2)] }
  else
    let total : ℕ := (scores.map Prod.snd).sum
    let best := (argmaxFirst scores).getD ("General Support", 0)
    let sortedScores := (sortDesc scores).take 3
    let topPredictions := (sortedScores.filter (fun p => 0 < p.2)).map
      (fun p => (p.1, (p.2 : ℚ) / (max total 1 : ℕ)))
    { category := best.1,
      confidence := (best.2 : ℚ) / (max total 1 : ℕ),
      method := "rules",
      topPredictions := if topPredictions.isEmpty
        then [("General Support", 1/2)] else topPredictions }

/-- Recognized keys of the metadata dict consumed by
TicketClassifier._classify_priority; an Option none field models an absent
key, and previous_escalations defaults to 0 as in metadata.get. -/
structure TicketMetadata where
  customer_tier : Option String
  previous_escalations : ℤ
  sla_hours : Option ℚ
deriving DecidableEq, Repr

/-- Keyword buckets of TicketClassifier._load_priority_keywords. -/
def priorityKeywords : List (String × List String) :=
  [("urgent",
    ["urgent", "emergency", "critical", "immediately", "asap", "down",
     "not working", "broken", "crashed", "error", "can\x27t access",
     "blocked", "security breach", "data loss", "system down", "outage",
     "production issue"]),
   ("high",
    ["important", "soon", "high priority", "affecting multiple",
     "production", "customer facing", "revenue impact", "business critical",
     "major issue", "severe"]),
   ("medium",
    ["need help", "issue", "problem", "question", "not sure", "confused",
     "clarification", "assistance", "support needed", "help required"]),
   ("low",
    ["when possible", "future", "enhancement", "suggestion", "feedback",
     "nice to have", "eventually", "minor", "cosmetic", "improvement"])]

/-- Keyword score of one priority bucket: each keyword occurring in the
lowercased title-plus-description adds 2 when it also occurs in the
lowercased title and 1 otherwise. -/
def priKwScore (titleLower textLower : List Char) (kws : List String) : ℕ :=
  kws.foldl
    (fun score kw =>
      if isInfixChars kw.data textLower then
        score + (if isInfixChars kw.data titleLower then 2 else 1)
      else score)
    0

/-- Scores dict of _classify_priority after the keyword loop and the
metadata adjustments, in the insertion order urgent, high, medium, low. -/
def priorityScores (title desc : String) (md : TicketMetadata) :
    List (String × ℕ) :=
  let textLower := lowerChars (title ++ " " ++ desc)
  let titleLower := lowerChars title
  let base := priorityKeywords.map
    (fun pk => (pk.1, priKwScore titleLower textLower pk.2))
  let vipAdj : ℕ := if md.customer_tier = some "vip" then 3 else 0
  let escAdj : ℕ := if 0 < md.previous_escalations then 2 else 0
  let slaUrgentAdj : ℕ :=
    match md.sla_hours with
    | some h => if h ≤ 2 then 3 else 0
    | none => 0
  let slaHighAdj : ℕ :=
    match md.sla_hours with
    | some h => if h ≤ 2 then 0 else if h ≤ 8 then 2 else 0
    | none => 0
  base.map (fun p =>
    if p.1 = "urgent" then (p.1, p.2 + slaUrgentAdj)
    else if p.1 = "high" then (p.1, p.2 + vipAdj + escAdj + slaHighAdj)
    else p)

/-- Result of a priority classification, the dict built by
TicketClassifier._classify_priority. -/
structure PriResult where
  priority : String
  confidence : ℚ
  scores : List (String × ℕ)
deriving DecidableEq, Repr

/-- Embedding of TicketClassifier._classify_priority. -/
def classifyPriority (title desc : String) (md : TicketMetadata) : PriResult :=
  let scores := priorityScores title desc md
  if ((scores.map Prod.snd).foldr max 0) = 0 then
    { priority := "medium", confidence := 3/5, scores := scores }
  else
    let total : ℕ := (scores.map Prod.snd).sum
    let best := (argmaxFirst scores).getD ("medium", 0)
    { priority := best.1,
      confidence := min ((best.2 : ℚ) / (max total 1 : ℕ) * (3/2)) 1,
      scores := scores }

/-- Topic table of TicketClassifier._extract_tags. -/
def tagMap : List (String × List String) :=
  [("api", ["api", "endpoint", "integration", "webhook", "rest", "graphql"]),
   ("database", ["database", "sql", "query", "table", "migration"]),
   ("authentication", ["login", "password", "auth", "token", "oauth"]),
   ("payment", ["payment", "billing", "charge", "invoice", "stripe", "paypal"]),
   ("ui", ["interface", "ui", "display", "screen", "button", "layout"]),
   ("performance", ["slow", "performance", "speed", "latency", "timeout"]),
   ("security", ["security", "breach", "hack", "vulnerability", "ssl",
     "encryption"]),
   ("mobile", ["mobile", "ios", "android", "app", "smartphone"]),
   ("email", ["email", "smtp", "bounce", "delivery", "notification"]),
   ("reporting", ["report", "analytics", "dashboard", "chart", "export"])]

/-- Embedding of TicketClassifier._extract_tags. -/
def extractTags (text : String) : List String :=
  ((tagMap.filter
      (fun p => p.2.any (fun kw => isInfixChars kw.data (lowerChars text)))).map
    Prod.fst).take 5

/-- Lookup matrix of TicketClassifier._estimate_resolution_time. -/
def resolutionMatrix : List ((String × String) × String) :=
  [(("urgent", "Technical Issue"), "2–4 hours"),
   (("urgent", "Billing"), "1–2 hours"),
   (("urgent", "Account Management"), "1–2 hours"),
   (("high", "Technical Issue"), "4–8 hours"),
   (("high", "Billing"), "2–4 hours"),
   (("high", "Account Management"), "2–4 hours"),
   (("medium", "Technical Issue"), "1–2 business days"),
   (("medium", "Billing"), "4–8 hours"),
   (("medium", "Account Management"), "4–8 hours"),
   (("low", "Technical Issue"), "3–5 business days"),
   (("low", "Billing"), "1–2 business days"),
   (("low", "Account Management"), "1–2 business days")]

/-- Embedding of TicketClassifier._estimate_resolution_time. -/
def estimateResolutionTime (category priority : String) : String :=
  ((resolutionMatrix.find?
      (fun e => e.1.1 == priority && e.1.2 == category)).map Prod.snd).getD
    "2–3 business days"

/-- Lookup table of TicketClassifier._suggest_team. -/
def teamMapping : List (String × String) :=
  [("Technical Issue", "technical"), ("Bug Report", "technical"),
   ("Billing", "billing"), ("Account Management", "support"),
   ("Product Inquiry", "support"), ("Feature Request", "product"),
   ("General Support", "general")]

/-- Embedding of TicketClassifier._suggest_team. -/
def suggestTeam (category : String) : String :=
  ((teamMapping.find? (fun e => e.1 == category)).map Prod.snd).getD "general"

/-- Backend state of TicketClassifier: the zero-shot pipeline and the
traditional model-plus-vectorizer pair. A none field is an attribute left
None by setup; an Except.error call models a raised exception; an
Except.ok call returns the (label, score) ranking the library would
produce, sorted by the zero-shot backend and in class order with class
probabilities for the traditional backend. -/
structure Backends where
  bert : Option (String → Except Unit (List (String × ℚ)))
  trad : Option (String → Except Unit (List (String × ℚ)))

/-- Embedding of TicketClassifier._classify_with_bert: on a missing
backend, a raising call, or an empty ranking (an IndexError inside the
try block) it falls back to the rules classifier. -/
def classifyWithBert (bk : Backends) (text : String) : CatResult :=
  match bk.bert with
  | none => classifyWithRules text
  | some g =>
    match g text with
    | Except.error _ => classifyWithRules text
    | Except.ok ranked =>
      match ranked with
      | [] => classifyWithRules text
      | (lbl, sc) :: _ =>
        { category := lbl, confidence := sc, method := "bert",
          topPredictions := ranked.take 3 }

/-- Embedding of TicketClassifier._classify_with_traditional. The label is
the class of highest probability, first class on ties as with np.argmax;
the top predictions are the 3 highest-probability classes (np.argsort tie
order is unspecified, modelled here by the stable descending sort). -/
def classifyWithTraditional (bk : Backends) (text : String) : CatResult :=
  match bk.trad with
  | none => classifyWithRules text
  | some g =>
    match g text with
    | Except.error _ => classifyWithRules text
    | Except.ok probs =>
      match argmaxFirst probs with
      | none => classifyWithRules text
      | some best =>
        { category := best.1, confidence := best.2, method := "traditional",
          topPredictions := (sortDesc probs).take 3 }

/-- Component list built by TicketClassifier._classify_with_ensemble:
category, confidence and fixed weight of each available component, the
rules component always last. -/
def ensembleComponents (bk : Backends) (text : String) :
    List (String × ℚ × ℚ) :=
  (match bk.bert with
    | none => []
    | some _ =>
      let b := classifyWithBert bk text
      [(b.category, b.confidence, (3 : ℚ)/5)]) ++
  (match bk.trad with
    | none => []
    | some _ =>
      let t := classifyWithTraditional bk text
      [(t.category, t.confidence, (3 : ℚ)/10)]) ++
  (let r := classifyWithRules text
   [(r.category, r.confidence, (1 : ℚ)/10)])

/-- Accumulated per-category scores dict of _classify_with_ensemble. -/
def ensembleScores (bk : Backends) (text : String) : List (String × ℚ) :=
  (ensembleComponents bk text).foldl
    (fun acc comp => upsert comp.1 (comp.2.1 * comp.2.2) acc) []

/-- Embedding of TicketClassifier._classify_with_ensemble. -/
def classifyWithEnsemble (bk : Backends) (text : String) : CatResult :=
  let sortedItems := sortDesc (ensembleScores bk text)
  match sortedItems with
  | [] => classifyWithRules text
  | (finalCat, finalScore) :: _ =>
    { category := finalCat, confidence := finalScore, method := "ensemble",
      topPredictions := sortedItems.take 3 }

/-- Embedding of TicketClassifier._classify_category: the ensemble when
both models exist, else the best available model, else rules. -/
def classifyCategory (bk : Backends) (text : String) : CatResult :=
  if bk.bert.isSome && bk.trad.isSome then classifyWithEnsemble bk text
  else if bk.bert.isSome then classifyWithBert bk text
  else if bk.trad.isSome then classifyWithTraditional bk text
  else classifyWithRules text

/-- Result dict of TicketClassifier.classify_ticket. -/
structure TicketResult where
  category : String
  category_confidence : ℚ
  priority : String
  priority_confidence : ℚ
  tags : List String
  estimated_resolution_time : String
  suggested_team : String
  top_categories : List (String × ℚ)
  classification_method : String
deriving DecidableEq, Repr

/-- Embedding of TicketClassifier.classify_ticket. Every inner component
catches its own exceptions, so the outer try/except branch returning the
General Support default is unreachable in this model and the function is
total. -/
def classifyTicket (bk : Backends) (title description : String)
    (md : TicketMetadata) : TicketResult :=
  let text := title ++ ". " ++ description
  let catResult := classifyCategory bk text
  let priResult := classifyPriority title description md
  { category := catResult.category,
    category_confidence := catResult.confidence,
    priority := priResult.priority,
    priority_confidence := priResult.confidence,
    tags := extractTags text,
    estimated_resolution_time :=
      estimateResolutionTime catResult.category priResult.priority,
    suggested_team := suggestTeam catResult.category,
    top_categories := catResult.topPredictions,
    classification_method := catResult.method }

/-- Backend state of SentimentAnalyzer: the transformer pipeline, VADER,
and TextBlob. A none field is an attribute left None by setup; textblob is
guarded by the textblob_enabled flag, its call still able to raise. The
transformer call returns the raw label and its probability; the VADER call
returns the compound score; the TextBlob call returns the polarity (the
subjectivity is dropped as unused by the ensemble). -/
structure SentBackends where
  transformerPipe : Option (String → Except Unit (String × ℚ))
  vader : Option (String → Except Unit ℚ)
  textblobEnabled : Bool
  textblobPolarity : String → Except Unit ℚ

/-- Label-plus-score pair returned by the three component scorers of
SentimentAnalyzer (the transformer path's extra confidence key is dropped
as unused by the ensemble). -/
structure SentComp where
  label : String
  score : ℚ
deriving DecidableEq, Repr

/-- Label normalization map of analyze_with_transformer, applied to the
uppercased raw label with default neutral. -/
def transformerLabelMap : List (String × String) :=
  [("LABEL_0", "negative"), ("LABEL_1", "neutral"), ("LABEL_2", "positive"),
   ("NEGATIVE", "negative"), ("NEUTRAL", "neutral"), ("POSITIVE", "positive")]

/-- Embedding of SentimentAnalyzer.analyze_with_transformer. With the
pipeline absent it returns label neutral with score 0.5 as written at the
top of the try block; on an exception it returns label neutral with score
0.0; otherwise the label is normalized and the probability is
sign-adjusted into a score in [-1, 1]. -/
def analyzeWithTransformer (bk : SentBackends) (text : String) : SentComp :=
  match bk.transformerPipe with
  | none => { label := "neutral", score := 1/2 }
  | some g =>
    match g text with
    | Except.error _ => { label := "neutral", score := 0 }
    | Except.ok (rawLabel, prob) =>
      let upper := String.mk (rawLabel.data.map Char.toUpper)
      let label :=
        ((transformerLabelMap.find? (fun p => p.1 == upper)).map
          Prod.snd).getD "neutral"
      let normalizedScore : ℚ :=
        if label = "negative" then -prob
        else if label = "positive" then prob
        else 0
      { label := label, score := normalizedScore }

/-- Embedding of SentimentAnalyzer.analyze_with_vader. -/
def analyzeWithVader (bk : SentBackends) (text : String) : SentComp :=
  match bk.vader with
  | none => { label := "neutral", score := 0 }
  | some g =>
    match g text with
    | Except.error _ => { label := "neutral", score := 0 }
    | Except.ok compound =>
      let label :=
        if compound ≥ 1/20 then "positive"
        else if compound ≤ -(1/20) then "negative"
        else "neutral"
      { label := label, score := compound }

/-- Embedding of SentimentAnalyzer.analyze_with_textblob. -/
def analyzeWithTextblob (bk : SentBackends) (text : String) : SentComp :=
  if bk.textblobEnabled = false then { label := "neutral", score := 0 }
  else
    match bk.textblobPolarity text with
    | Except.error _ => { label := "neutral", score := 0 }
    | Except.ok polarity =>
      let label :=
        if polarity > 1/10 then "positive"
        else if polarity < -(1/10) then "negative"
        else "neutral"
      { label := label, score := polarity }

/-- Result dict of SentimentAnalyzer.ensemble_analysis (the details
breakdown is retained as the three component results). -/
structure SentResult where
  sentiment : String
  score : ℚ
  confidence : ℚ
  method : String
  details : List (String × SentComp)
deriving DecidableEq, Repr

/-- Embedding of SentimentAnalyzer.ensemble_analysis. The three component
calls always return a non-empty dict, hence a truthy value, so all three
weights 0.5, 0.3, 0.2 are always collected and their total is 1. -/
def ensembleAnalysis (bk : SentBackends) (text : String) : SentResult :=
  let transformerResult := analyzeWithTransformer bk text
  let vaderResult := analyzeWithVader bk text
  let textblobResult := analyzeWithTextblob bk text
  let scores := [transformerResult.score, vaderResult.score, textblobResult.score]
  let weights : List ℚ := [1/2, 3/10, 1/5]
  let totalWeight := weights.sum
  let weightedScore :=
    ((scores.zip weights).map (fun sw => sw.1 * sw.2)).sum / totalWeight
  let finalSentiment :=
    if weightedScore > 1/10 then "positive"
    else if weightedScore < -(1/10) then "negative"
    else "neutral"
  { sentiment := finalSentiment, score := weightedScore,
    confidence := |weightedScore|, method := "ensemble",
    details := [("transformer", transformerResult), ("vader", vaderResult),
      ("textblob", textblobResult)] }

/-- Trend computation of SentimentAnalyzer.analyze_conversation over the
ordered per-message ensemble scores: stable unless there are at least 3
scores, else the mean of the last 3 is compared with the sum of the
earlier scores divided by max(length - 3, 1), with a 0.2 deadband. -/
def conversationTrend (scores : List ℚ) : String :=
  if 3 ≤ scores.length then
    let recentAvg := (scores.drop (scores.length - 3)).sum / 3
    let earlierAvg :=
      (scores.take (scores.length - 3)).sum / (max (scores.length - 3) 1 : ℕ)
    if recentAvg > earlierAvg + 1/5 then "improving"
    else if recentAvg < earlierAvg - 1/5 then "declining"
    else "stable"
  else "stable"

/-- Conversation state consumed by AIchatbotEngine.should_escalate: the
overall sentiment fields of the Conversation row and the contents of its
messages ordered ascending by timestamp, the default ordering declared by
Message.Meta. -/
structure ConversationState where
  overall_sentiment : String
  sentiment_score : ℚ
  messages : List String
deriving DecidableEq, Repr

/-- Escalation keyword list of AIchatbotEngine.should_escalate. -/
def escalationKeywords : List String :=
  ["agent", "human", "person", "manager", "supervisor", "speak to someone"]

/-- Embedding of AIchatbotEngine.should_escalate. The slice
conversation.messages.all()[:5] takes the first five messages of the
ascending timestamp ordering. -/
def shouldEscalate (c : ConversationState) : Bool × String :=
  if c.overall_sentiment = "negative" ∧ c.sentiment_score < -(1/2) then
    (true, "Negative sentiment detected")
  else if 10 < c.messages.length then
    (true, "Extended conversation")
  else
    let recentMessages := c.messages.take 5
    if recentMessages.any (fun m =>
        escalationKeywords.any (fun kw => isInfixChars kw.data (lowerChars m)))
    then (true, "Customer requested human agent")
    else (false, "")

/-- Escalation decision as the claim states it, written from the claim
wording alone for comparison with the source embedding: the keyword scan
runs over the LAST 5 messages instead of the slice the source takes. -/
def shouldEscalateClaim (c : ConversationState) : Bool × String :=
  if c.overall_sentiment = "negative" ∧ c.sentiment_score < -(1/2) then
    (true, "Negative sentiment detected")
  else if 10 < c.messages.length then
    (true, "Extended conversation")
  else
    let lastFive := c.messages.drop (c.messages.length - 5)
    if lastFive.any (fun m =>
        escalationKeywords.any (fun kw => isInfixChars kw.data (lowerChars m)))
    then (true, "Customer requested human agent")
    else (false, "")

/-- Trend computation as the claim states it, written from the claim
wording alone for comparison with the source embedding: with 3 or more
scores the mean of the last 3 is compared against the mean of the scores
before them, or against the mean of ALL scores when fewer than 3 scores
remain before the last 3. -/
def conversationTrendClaim (scores : List ℚ) : String :=
  if 3 ≤ scores.length then
    let recentAvg := (scores.drop (scores.length - 3)).sum / 3
    let earlier := scores.take (scores.length - 3)
    let earlierAvg :=
      if earlier.length < 3 then scores.sum / (scores.length : ℕ)
      else earlier.sum / (earlier.length : ℕ)
    if recentAvg > earlierAvg + 1/5 then "improving"
    else if recentAvg < earlierAvg - 1/5 then "declining"
    else "stable"
  else "stable"

/-- Hypothesis on a classification backend oracle: every score of a
successful call lies in [0, 1], as the zero-shot softmax scores and the
predict_proba class probabilities do. -/
def OracleProbBounds (o : Option (String → Except Unit (List (String × ℚ)))) : Prop :=
  ∀ g, o = some g → ∀ t l, g t = Except.ok l → ∀ p ∈ l, 0 ≤ p.2 ∧ p.2 ≤ 1

/-- Hypothesis on a classification backend oracle: every label of a
successful call belongs to the given category list. The zero-shot
pipeline satisfies this by construction because it is called with the
configured categories as candidate labels; the traditional model
satisfies it only when its trained class labels all belong to the list. -/
def OracleLabels (o : Option (String → Except Unit (List (String × ℚ))))
    (cats : List String) : Prop :=
  ∀ g, o = some g → ∀ t l, g t = Except.ok l → ∀ p ∈ l, p.1 ∈ cats

/-- Total failure of a classification backend oracle for one call: the
backend is absent (the attribute is None) or its call on the given text
raises. -/
def OracleFails (o : Option (String → Except Unit (List (String × ℚ))))
    (t : String) : Prop :=
  o = none ∨ ∃ g, o = some g ∧ ∃ e, g t = Except.error e

/-- Hypothesis on the sentiment backends: the transformer probability lies
in [0, 1] and the VADER compound and TextBlob polarity lie in [-1, 1], as
the corresponding libraries guarantee. -/
def SentOracleBounds (sbk : SentBackends) : Prop :=
  (∀ g, sbk.transformerPipe = some g →
    ∀ t lp, g t = Except.ok lp → 0 ≤ lp.2 ∧ lp.2 ≤ 1)
  ∧ (∀ g, sbk.vader = some g →
    ∀ t q, g t = Except.ok q → -1 ≤ q ∧ q ≤ 1)
  ∧ (∀ t q, sbk.textblobPolarity t = Except.ok q → -1 ≤ q ∧ q ≤ 1)

theorem isLeadingSeg_iff (n h : List Char) :
    isLeadingSeg n h = true ↔ n <+: h := by
  induction n generalizing h with
  | nil => simp [isLeadingSeg]
  | cons a as ih =>
    cases h with
    | nil => simp [isLeadingSeg]
    | cons b bs =>
      simp only [isLeadingSeg, Bool.and_eq_true, decide_eq_true_eq, ih,
        List.cons_prefix_cons]

theorem isInfixChars_iff (n h : List Char) :
    isInfixChars n h = true ↔ n <:+: h := by
  induction h with
  | nil =>
    simp only [isInfixChars, List.isEmpty_iff]
    constructor
    · rintro rfl; exact List.infix_rfl
    · intro hi; exact List.eq_nil_of_infix_nil hi
  | cons b bs ih =>
    simp only [isInfixChars, Bool.or_eq_true, isLeadingSeg_iff, ih]
    constructor
    · rintro (hp | hi)
      · exact hp.isInfix
      · exact List.infix_cons hi
    · intro hi
      rcases hi with ⟨s, t, hst⟩
      cases s with
      | nil => left; exact ⟨t, by simpa using hst⟩
      | cons c cs =>
        right
        refine ⟨cs, t, ?_⟩
        simpa using congrArg List.tail hst

/-- Occurrence of the space-padded keyword inside the space-padded text
forces plain occurrence of the keyword inside the text (with spaces
written as the character blank). -/
theorem infix_of_padded {kw text : List Char}
    (h : (' ' :: kw ++ [' ']) <:+: (' ' :: text ++ [' '])) :
    kw <:+: text := by
  rcases h with ⟨s, t, hst⟩
  have hst2 : (s ++ [' ']) ++ (kw ++ ([' '] ++ t)) = ' ' :: (text ++ [' ']) := by
    simpa [List.append_assoc] using hst
  have hlen : s.length + kw.length + t.length = text.length := by
    have := congrArg List.length hst2
    simp [List.length_append] at this
    omega
  have hextract :
      ((' ' :: (text ++ [' '])).drop (s.length + 1)).take kw.length = kw := by
    rw [← hst2]
    have hdrop : ((s ++ [' ']) ++ (kw ++ ([' '] ++ t))).drop (s ++ [' ']).length
        = kw ++ ([' '] ++ t) := List.drop_left _ _
    have hslen : (s ++ [' ']).length = s.length + 1 := by simp
    rw [← hslen, hdrop]
    exact List.take_left kw ([' '] ++ t)
  have hdrop2 : (' ' :: (text ++ [' '])).drop (s.length + 1)
      = text.drop s.length ++ [' '] := by
    rw [List.drop_succ_cons]
    exact List.drop_append_of_le_length (by omega)
  have htake2 : (text.drop s.length ++ [' ']).take kw.length
      = (text.drop s.length).take kw.length :=
    List.take_append_of_le_length (by simp; omega)
  have hkw : kw = (text.drop s.length).take kw.length := by
    rw [← htake2, ← hdrop2, hextract]
  have hpre : kw <+: text.drop s.length := by
    rw [hkw]; exact List.take_prefix _ _
  exact hpre.isInfix.trans (List.drop_suffix s.length text).isInfix


theorem argmaxFirst_foldl_mem {β : Type} [LinearOrder β]
    (xs : List (String × β)) (x : String × β) :
    xs.foldl (fun best y => if best.2 < y.2 then y else best) x = x ∨
      xs.foldl (fun best y => if best.2 < y.2 then y else best) x ∈ xs := by
  induction xs generalizing x with
  | nil => exact Or.inl rfl
  | cons z zs ih =>
    simp only [List.foldl_cons]
    rcases ih (if x.2 < z.2 then z else x) with h | h
    · by_cases hz : x.2 < z.2
      · right; rw [h, if_pos hz]; exact List.mem_cons_self _ _
      · left; rw [h, if_neg hz]
    · right; exact List.mem_cons_of_mem _ h

theorem argmaxFirst_foldl_ge {β : Type} [LinearOrder β]
    (xs : List (String × β)) (x : String × β) :
    x.2 ≤ (xs.foldl (fun best y => if best.2 < y.2 then y else best) x).2 ∧
      ∀ p ∈ xs, p.2 ≤ (xs.foldl (fun best y => if best.2 < y.2 then y else best) x).2 := by
  induction xs generalizing x with
  | nil => exact ⟨le_refl _, by simp⟩
  | cons z zs ih =>
    simp only [List.foldl_cons]
    obtain ⟨h1, h2⟩ := ih (if x.2 < z.2 then z else x)
    constructor
    · refine le_trans ?_ h1
      by_cases hz : x.2 < z.2
      · rw [if_pos hz]; exact le_of_lt hz
      · rw [if_neg hz]
    · intro p hp
      rcases List.mem_cons.mp hp with rfl | hp
      · refine le_trans ?_ h1
        by_cases hz : x.2 < p.2
        · rw [if_pos hz]
        · rw [if_neg hz]; exact le_of_not_lt hz
      · exact h2 p hp

theorem argmaxFirst_mem {β : Type} [LinearOrder β]
    {l : List (String × β)} {m : String × β} (h : argmaxFirst l = some m) : m ∈ l := by
  cases l with
  | nil => simp [argmaxFirst] at h
  | cons x xs =>
    simp only [argmaxFirst, Option.some.injEq] at h
    rcases argmaxFirst_foldl_mem xs x with h2 | h2
    · rw [← h, h2]; exact List.mem_cons_self _ _
    · rw [← h]; exact List.mem_cons_of_mem _ h2

theorem argmaxFirst_ge {β : Type} [LinearOrder β]
    {l : List (String × β)} {m : String × β} (h : argmaxFirst l = some m) :
    ∀ p ∈ l, p.2 ≤ m.2 := by
  cases l with
  | nil => simp [argmaxFirst] at h
  | cons x xs =>
    simp only [argmaxFirst, Option.some.injEq] at h
    obtain ⟨h1, h2⟩ := argmaxFirst_foldl_ge xs x
    intro p hp
    rcases List.mem_cons.mp hp with rfl | hp
    · rw [← h]; exact h1
    · rw [← h]; exact h2 p hp


theorem mem_insDesc {β : Type} [LinearOrder β]
    (a x : String × β) (l : List (String × β)) :
    x ∈ insDesc a l ↔ x = a ∨ x ∈ l := by
  induction l with
  | nil => simp [insDesc]
  | cons b rest ih =>
    simp only [insDesc]
    by_cases hb : b.2 ≤ a.2
    · rw [if_pos hb]; simp
    · rw [if_neg hb]
      simp only [List.mem_cons, ih]
      tauto

theorem mem_sortDesc {β : Type} [LinearOrder β]
    (x : String × β) (l : List (String × β)) :
    x ∈ sortDesc l ↔ x ∈ l := by
  induction l with
  | nil => simp [sortDesc]
  | cons b rest ih =>
    simp only [sortDesc, List.foldr_cons] at *
    rw [mem_insDesc, ih, List.mem_cons]

theorem sortDesc_pairwise {β : Type} [LinearOrder β] (l : List (String × β)) :
    (sortDesc l).Pairwise (fun x y => y.2 ≤ x.2) := by
  induction l with
  | nil => simp [sortDesc]
  | cons b rest ih =>
    simp only [sortDesc, List.foldr_cons] at *
    generalize hs : rest.foldr insDesc [] = s at ih
    clear hs
    induction s with
    | nil => simp [insDesc]
    | cons c cs ihs =>
      simp only [insDesc]
      by_cases hc : c.2 ≤ b.2
      · rw [if_pos hc]
        refine List.Pairwise.cons ?_ ih
        intro y hy
        rcases List.mem_cons.mp hy with rfl | hy
        · exact hc
        · exact le_trans ((List.pairwise_cons.mp ih).1 y hy) hc
      · rw [if_neg hc]
        have ih2 := List.pairwise_cons.mp ih
        refine List.Pairwise.cons ?_ (ihs ih2.2)
        intro y hy
        rcases (mem_insDesc b y cs).mp hy with rfl | hy
        · exact le_of_not_le hc
        · exact ih2.1 y hy

theorem sortDesc_ne_nil {β : Type} [LinearOrder β]
    {l : List (String × β)} (h : l ≠ []) : sortDesc l ≠ [] := by
  cases l with
  | nil => exact absurd rfl h
  | cons b rest =>
    simp only [sortDesc, List.foldr_cons]
    cases hrest : rest.foldr insDesc [] with
    | nil => simp [insDesc]
    | cons c cs =>
      simp only [insDesc]
      by_cases hc : c.2 ≤ b.2
      · rw [if_pos hc]; simp
      · rw [if_neg hc]; simp

theorem sortDesc_head_ge {β : Type} [LinearOrder β]
    {l : List (String × β)} {h : String × β} {t : List (String × β)}
    (hs : sortDesc l = h :: t) : ∀ x ∈ l, x.2 ≤ h.2 := by
  intro x hx
  have hx2 : x ∈ sortDesc l := (mem_sortDesc x l).mpr hx
  rw [hs] at hx2
  rcases List.mem_cons.mp hx2 with rfl | hx2
  · exact le_refl _
  · have hp := sortDesc_pairwise l
    rw [hs] at hp
    exact (List.pairwise_cons.mp hp).1 x hx2


theorem dictGet_upsert_same (k : String) (v : ℚ) (l : List (String × ℚ)) :
    dictGet k (upsert k v l) = dictGet k l + v := by
  induction l with
  | nil => simp [upsert, dictGet]
  | cons p rest ih =>
    simp only [upsert]
    by_cases hp : p.1 = k
    · rw [if_pos hp]
      simp [dictGet, List.find?, hp]
    · rw [if_neg hp]
      simp only [dictGet, List.find?] at *
      have hbeq : (p.1 == k) = false := by
        simpa using hp
      simp only [hbeq, ih]

theorem dictGet_upsert_other {c k : String} (hck : c ≠ k) (v : ℚ)
    (l : List (String × ℚ)) :
    dictGet c (upsert k v l) = dictGet c l := by
  induction l with
  | nil =>
    simp only [upsert, dictGet, List.find?]
    have hbeq : (k == c) = false := by simpa using (Ne.symm hck)
    simp [hbeq]
  | cons p rest ih =>
    simp only [upsert]
    by_cases hp : p.1 = k
    · rw [if_pos hp]
      have hbeq : (p.1 == c) = false := by
        simp [hp]; exact Ne.symm hck
      simp [dictGet, List.find?, hbeq]
    · rw [if_neg hp]
      simp only [dictGet, List.find?] at *
      by_cases hc : p.1 = c
      · have hbeq : (p.1 == c) = true := by simpa using hc
        simp [hbeq]
      · have hbeq : (p.1 == c) = false := by simpa using hc
        simp only [hbeq, ih]

theorem map_fst_upsert (k : String) (v : ℚ) (l : List (String × ℚ)) :
    (upsert k v l).map Prod.fst =
      if k ∈ l.map Prod.fst then l.map Prod.fst else l.map Prod.fst ++ [k] := by
  induction l with
  | nil => simp [upsert]
  | cons p rest ih =>
    simp only [upsert]
    by_cases hp : p.1 = k
    · rw [if_pos hp]
      simp [hp]
    · rw [if_neg hp]
      simp only [List.map_cons, ih, List.mem_cons]
      by_cases hk : k ∈ rest.map Prod.fst
      · rw [if_pos hk, if_pos (Or.inr hk)]
      · rw [if_neg hk, if_neg (by rintro (h | h); exact hp h.symm; exact hk h)]
        simp

theorem nodup_upsert {k : String} {v : ℚ} {l : List (String × ℚ)}
    (h : (l.map Prod.fst).Nodup) : ((upsert k v l).map Prod.fst).Nodup := by
  rw [map_fst_upsert]
  by_cases hk : k ∈ l.map Prod.fst
  · rw [if_pos hk]; exact h
  · rw [if_neg hk]
    simp [List.nodup_append, h, hk]

theorem dictGet_of_mem_nodup {l : List (String × ℚ)} {p : String × ℚ}
    (hnd : (l.map Prod.fst).Nodup) (hp : p ∈ l) : dictGet p.1 l = p.2 := by
  induction l with
  | nil => simp at hp
  | cons q rest ih =>
    rcases List.mem_cons.mp hp with rfl | hp
    · simp [dictGet, List.find?]
    · have hnd2 : q.1 ∉ rest.map Prod.fst ∧ (rest.map Prod.fst).Nodup := by
        rw [List.map_cons, List.nodup_cons] at hnd
        exact hnd
      have hq : q.1 ≠ p.1 := by
        intro he
        exact hnd2.1 (he ▸ List.mem_map_of_mem Prod.fst hp)
      have hbeq : (q.1 == p.1) = false := by simpa using hq
      simp only [dictGet, List.find?, hbeq]
      exact ih hnd2.2 hp

theorem foldl_upsert_get (comps : List (String × ℚ)) (init : List (String × ℚ))
    (c : String) :
    dictGet c (comps.foldl (fun acc x => upsert x.1 x.2 acc) init)
      = dictGet c init + ((comps.filter (fun x => x.1 == c)).map Prod.snd).sum := by
  induction comps generalizing init with
  | nil => simp
  | cons x xs ih =>
    simp only [List.foldl_cons, ih]
    by_cases hx : x.1 = c
    · have hbeq : (x.1 == c) = true := by simpa using hx
      have hf : List.filter (fun y => y.1 == c) (x :: xs)
          = x :: List.filter (fun y => y.1 == c) xs := by
        simp [List.filter_cons, hbeq]
      rw [hf, hx, dictGet_upsert_same]
      simp only [List.map_cons, List.sum_cons]
      ring
    · have hbeq : (x.1 == c) = false := by simpa using hx
      have hf : List.filter (fun y => y.1 == c) (x :: xs)
          = List.filter (fun y => y.1 == c) xs := by
        simp [List.filter_cons, hbeq]
      rw [hf, dictGet_upsert_other (fun he => hx he.symm)]

theorem foldl_upsert_nodup (comps : List (String × ℚ)) (init : List (String × ℚ))
    (h : (init.map Prod.fst).Nodup) :
    ((comps.foldl (fun acc x => upsert x.1 x.2 acc) init).map Prod.fst).Nodup := by
  induction comps generalizing init with
  | nil => exact h
  | cons x xs ih =>
    simp only [List.foldl_cons]
    exact ih _ (nodup_upsert h)

theorem mem_foldl_upsert_keys (comps : List (String × ℚ)) (init : List (String × ℚ))
    (p : String × ℚ)
    (hp : p ∈ comps.foldl (fun acc x => upsert x.1 x.2 acc) init) :
    p.1 ∈ init.map Prod.fst ∨ p.1 ∈ comps.map Prod.fst := by
  induction comps generalizing init with
  | nil => exact Or.inl (List.mem_map_of_mem Prod.fst hp)
  | cons x xs ih =>
    simp only [List.foldl_cons] at hp
    rcases ih _ hp with h | h
    · have h2 := h
      rw [map_fst_upsert] at h2
      by_cases hk : x.1 ∈ init.map Prod.fst
      · rw [if_pos hk] at h2; exact Or.inl h2
      · rw [if_neg hk] at h2
        rcases List.mem_append.mp h2 with h3 | h3
        · exact Or.inl h3
        · right
          simp only [List.mem_singleton] at h3
          rw [h3]
          exact List.mem_cons_self _ _
    · exact Or.inr (List.mem_cons_of_mem _ h)


theorem foldl_guarded_add_eq_sum (p q : String → Bool) (l : List String) (a : ℕ) :
    l.foldl (fun acc kw => if p kw then acc + (if q kw then 2 else 1) else acc) a
      = a + (l.map (fun kw => if p kw then (if q kw then 2 else 1) else 0)).sum := by
  induction l generalizing a with
  | nil => simp
  | cons kw rest ih =>
    simp only [List.foldl_cons, List.map_cons, List.sum_cons]
    rw [ih]
    by_cases hp : p kw
    · simp only [if_pos hp]; omega
    · simp only [if_neg hp]; omega

theorem foldr_max_eq_zero_iff (l : List ℕ) :
    l.foldr max 0 = 0 ↔ ∀ x ∈ l, x = 0 := by
  induction l with
  | nil => simp
  | cons a rest ih =>
    simp only [List.foldr_cons, Nat.max_eq_zero_iff, ih, List.mem_cons]
    constructor
    · rintro ⟨ha, h⟩ x (rfl | hx)
      · exact ha
      · exact h x hx
    · intro h
      exact ⟨h a (Or.inl rfl), fun x hx => h x (Or.inr hx)⟩

theorem foldr_max_mem (l : List ℕ) :
    l.foldr max 0 = 0 ∨ l.foldr max 0 ∈ l := by
  induction l with
  | nil => simp
  | cons a rest ih =>
    simp only [List.foldr_cons]
    rcases Nat.le_total a (rest.foldr max 0) with h | h
    · rw [Nat.max_eq_right h]
      rcases ih with h2 | h2
      · exact Or.inl h2
      · exact Or.inr (List.mem_cons_of_mem _ h2)
    · rw [Nat.max_eq_left h]
      exact Or.inr (List.mem_cons_self _ _)

theorem foldr_max_ge (l : List ℕ) : ∀ x ∈ l, x ≤ l.foldr max 0 := by
  induction l with
  | nil => simp
  | cons a rest ih =>
    intro x hx
    simp only [List.foldr_cons]
    rcases List.mem_cons.mp hx with rfl | hx
    · exact Nat.le_max_left _ _
    · exact le_trans (ih x hx) (Nat.le_max_right _ _)

theorem argmaxFirst_isSome {β : Type} [LinearOrder β]
    {l : List (String × β)} (h : l ≠ []) : ∃ m, argmaxFirst l = some m := by
  cases l with
  | nil => exact absurd rfl h
  | cons x xs => exact ⟨_, rfl⟩

/-- Pointwise form of the per-keyword score of _classify_with_rules: the
claim's reading, 2 for a token match and 1 for a bare substring match,
agrees with the source's nested conditional because a space-padded match
forces a plain substring match. -/
theorem catKwScore_eq_specSum (tl : List Char) (kws : List String) :
    catKwScore tl kws = (kws.map (fun kw =>
      if isInfixChars (' ' :: kw.data ++ [' ']) (' ' :: tl ++ [' ']) then 2
      else if isInfixChars kw.data tl then 1
      else 0)).sum := by
  rw [catKwScore, foldl_guarded_add_eq_sum, Nat.zero_add]
  congr 1
  apply List.map_congr_left
  intro kw _
  by_cases ht :
      isInfixChars (' ' :: kw.data ++ [' ']) (' ' :: tl ++ [' ']) = true
  · have hs : isInfixChars kw.data tl = true :=
      (isInfixChars_iff _ _).mpr
        (infix_of_padded ((isInfixChars_iff _ _).mp ht))
    rw [if_pos hs, if_pos ht, if_pos ht]
  · by_cases hs : isInfixChars kw.data tl = true
    · rw [if_pos hs, if_neg ht, if_neg ht, if_pos hs]
    · rw [if_neg hs, if_neg ht, if_neg hs]

/-- Pointwise form of the per-keyword score of _classify_priority. -/
theorem priKwScore_eq_specSum (titleL textL : List Char) (kws : List String) :
    priKwScore titleL textL kws = (kws.map (fun kw =>
      if isInfixChars kw.data textL then
        (if isInfixChars kw.data titleL then 2 else 1)
      else 0)).sum := by
  rw [priKwScore, foldl_guarded_add_eq_sum, Nat.zero_add]

theorem rulesScores_map_fst (text : String) :
    (rulesScores text).map Prod.fst = defaultCategories := rfl

theorem rulesScores_ne_nil (text : String) : rulesScores text ≠ [] := by
  simp [rulesScores, categoryKeywordMap]

theorem rules_category_mem (text : String) :
    (classifyWithRules text).category ∈ defaultCategories := by
  rw [classifyWithRules]
  by_cases h : (((rulesScores text).map Prod.snd).foldr max 0) = 0
  · rw [if_pos h]; decide
  · rw [if_neg h]
    obtain ⟨m, hm⟩ := argmaxFirst_isSome (rulesScores_ne_nil text)
    simp only [hm, Option.getD_some]
    rw [← rulesScores_map_fst text]
    exact List.mem_map_of_mem Prod.fst (argmaxFirst_mem hm)

theorem rules_total_pos (text : String)
    (h : ¬ (((rulesScores text).map Prod.snd).foldr max 0) = 0) :
    0 < ((rulesScores text).map Prod.snd).sum := by
  rcases foldr_max_mem ((rulesScores text).map Prod.snd) with h0 | hmem
  · exact absurd h0 h
  · have hle := List.single_le_sum (by intro x _; exact Nat.zero_le x) _ hmem
    omega

theorem rules_confidence_bounds (text : String) :
    0 ≤ (classifyWithRules text).confidence
      ∧ (classifyWithRules text).confidence ≤ 1 := by
  rw [classifyWithRules]
  by_cases h : (((rulesScores text).map Prod.snd).foldr max 0) = 0
  · rw [if_pos h]; norm_num
  · rw [if_neg h]
    obtain ⟨m, hm⟩ := argmaxFirst_isSome (rulesScores_ne_nil text)
    simp only [hm, Option.getD_some]
    have hmem := argmaxFirst_mem hm
    have htot := rules_total_pos text h
    have hle : m.2 ≤ ((rulesScores text).map Prod.snd).sum :=
      List.single_le_sum (by intro x _; exact Nat.zero_le x) _
        (List.mem_map_of_mem Prod.snd hmem)
    constructor
    · positivity
    · rw [div_le_one (by positivity)]
      exact_mod_cast le_trans hle (by simp [Nat.le_max_left])

/-- C5: for every backend state and text, when the three sentiment
component scorers return scores t (transformer), a (VADER) and b
(TextBlob), the sentiment ensemble's score equals 0.5*t + 0.3*a + 0.2*b,
its label is positive when the score exceeds 0.1, negative when it is
below -0.1 and neutral otherwise, and its confidence is the absolute
value of the score. -/
theorem sentiment_ensemble_weighted_sum (bk : SentBackends) (text : String) :
    (ensembleAnalysis bk text).score =
        (1/2) * (analyzeWithTransformer bk text).score
      + (3/10) * (analyzeWithVader bk text).score
      + (1/5) * (analyzeWithTextblob bk text).score
  ∧ (ensembleAnalysis bk text).sentiment =
      (if (ensembleAnalysis bk text).score > 1/10 then "positive"
       else if (ensembleAnalysis bk text).score < -(1/10) then "negative"
       else "neutral")
  ∧ (ensembleAnalysis bk text).confidence = |(ensembleAnalysis bk text).score| := by
  refine ⟨?_, rfl, rfl⟩
  simp only [ensembleAnalysis, List.zip_cons_cons, List.zip_nil_right,
    List.map_cons, List.map_nil, List.sum_cons, List.sum_nil]
  ring

/-- C3: with the transformer pipeline left None by setup, the transformer
scorer returns label neutral with score 0.5, not the score 0.0 the claim
requires (the same function's exception branch and its neutral label
normalization both produce 0.0); the VADER and TextBlob scorers do return
label neutral with score 0.0 when unavailable. -/
theorem transformer_unavailable_score_half :
    analyzeWithTransformer
        ⟨none, none, false, fun _ => Except.error ()⟩ "my invoice is wrong"
      = { label := "neutral", score := 1/2 }
  ∧ ((1 : ℚ)/2 ≠ 0)
  ∧ analyzeWithVader
        ⟨none, none, false, fun _ => Except.error ()⟩ "my invoice is wrong"
      = { label := "neutral", score := 0 }
  ∧ analyzeWithTextblob
        ⟨none, none, false, fun _ => Except.error ()⟩ "my invoice is wrong"
      = { label := "neutral", score := 0 } := by
  refine ⟨rfl, by norm_num, rfl, rfl⟩

/-- C2: a neutral conversation of six messages in which only the sixth,
most recent message asks for an agent is NOT escalated by the source,
because messages.all()[:5] under the ascending timestamp ordering of
Message.Meta is the five OLDEST messages, although the source binds the
slice to a variable named recent_messages; the claim's reading, scanning
the last 5 messages, escalates it. -/
theorem escalation_scans_first_five :
    shouldEscalate
        ⟨"neutral", 0,
          ["hello", "how are you", "thanks", "ok", "fine", "i want an agent"]⟩
      = (false, "")
  ∧ shouldEscalateClaim
        ⟨"neutral", 0,
          ["hello", "how are you", "thanks", "ok", "fine", "i want an agent"]⟩
      = (true, "Customer requested human agent") := by
  constructor
  · decide
  · decide

/-- C8: on exactly three scores the source compares the mean of the last 3
against sum([]) divided by max(0, 1), which is 0.0, whereas the claim
compares it against the mean of all scores; at three scores of 0.5 the
source reports improving while the claim requires stable. -/
theorem trend_three_scores_diverges :
    conversationTrend [1/2, 1/2, 1/2] = "improving"
  ∧ conversationTrendClaim [1/2, 1/2, 1/2] = "stable"
  ∧ "improving" ≠ "stable" := by
  refine ⟨?_, ?_, by decide⟩
  · simp only [conversationTrend, List.length_cons, List.length_nil]
    norm_num
  · simp only [conversationTrendClaim, List.length_cons, List.length_nil]
    norm_num

/-- C1: a backend state in which the zero-shot pipeline is absent and the
trained statistical model predicts a class label outside the configured
category list makes classify_ticket return that free-text label, so the
claim's guarantee over every backend state fails. -/
theorem classify_ticket_free_text_category :
    (classifyTicket ⟨none, some fun _ => Except.ok [("Nonsense", 1)]⟩
        "t" "d" ⟨none, 0, none⟩).category = "Nonsense"
  ∧ "Nonsense" ∉ defaultCategories := by
  constructor
  · rfl
  · decide

/-- C6: for every text, the rule-based classifier scores each configured
category by summing 2 per keyword matched between blanks and 1 per keyword
matched only as a substring of the lowercased text; with all categories at
0 it returns General Support at confidence 0.5 with a single-element top
list, and otherwise a highest-scoring category at confidence
winning score over total score, with the top list the 3 highest-scoring
categories of non-zero score normalized the same way. -/
theorem rules_classifier_characterization (text : String) :
    rulesScores text = categoryKeywordMap.map (fun ckw => (ckw.1,
      ((ckw.2.map (fun kw =>
        if isInfixChars (' ' :: kw.data ++ [' '])
            (' ' :: lowerChars text ++ [' ']) then 2
        else if isInfixChars kw.data (lowerChars text) then 1
        else 0)).sum : ℕ)))
  ∧ ((∀ p ∈ rulesScores text, p.2 = 0) →
      classifyWithRules text =
        { category := "General Support", confidence := 1/2, method := "rules",
          topPredictions := [("General Support", 1/2)] })
  ∧ ((∃ p ∈ rulesScores text, p.2 ≠ 0) →
      ∃ best ∈ rulesScores text,
        (∀ p ∈ rulesScores text, p.2 ≤ best.2)
        ∧ (classifyWithRules text).category = best.1
        ∧ (classifyWithRules text).confidence
            = (best.2 : ℚ) / (((rulesScores text).map Prod.snd).sum : ℕ)
        ∧ (classifyWithRules text).topPredictions
            = (((sortDesc (rulesScores text)).take 3).filter
                (fun p => 0 < p.2)).map
                (fun p => (p.1,
                  (p.2 : ℚ) / (((rulesScores text).map Prod.snd).sum : ℕ)))) := by
  refine ⟨?_, ?_, ?_⟩
  · rw [rulesScores]
    apply List.map_congr_left
    intro ckw _
    exact congrArg (Prod.mk ckw.1) (catKwScore_eq_specSum (lowerChars text) ckw.2)
  · intro h
    have hz : (((rulesScores text).map Prod.snd).foldr max 0) = 0 := by
      rw [foldr_max_eq_zero_iff]
      intro x hx
      obtain ⟨p, hp, rfl⟩ := List.mem_map.mp hx
      exact h p hp
    simp only [classifyWithRules]
    rw [if_pos hz]
  · rintro ⟨p0, hp0, hp0ne⟩
    have hmax : ¬ (((rulesScores text).map Prod.snd).foldr max 0) = 0 := by
      intro hz
      exact hp0ne ((foldr_max_eq_zero_iff _).mp hz p0.2
        (List.mem_map_of_mem Prod.snd hp0))
    obtain ⟨m, hm⟩ := argmaxFirst_isSome (rulesScores_ne_nil text)
    have htot := rules_total_pos text hmax
    have hmaxeq : max (((rulesScores text).map Prod.snd).sum) 1
        = ((rulesScores text).map Prod.snd).sum := Nat.max_eq_left (by omega)
    refine ⟨m, argmaxFirst_mem hm, argmaxFirst_ge hm, ?_, ?_, ?_⟩
    · simp only [classifyWithRules]
      rw [if_neg hmax, hm]
      rfl
    · simp only [classifyWithRules]
      rw [if_neg hmax, hm, hmaxeq]
      rfl
    · obtain ⟨hpair, htail, hsd⟩ :
        ∃ (hpair : String × ℕ) (htail : List (String × ℕ)),
          sortDesc (rulesScores text) = hpair :: htail := by
        cases hsd : sortDesc (rulesScores text) with
        | nil => exact absurd hsd (sortDesc_ne_nil (rulesScores_ne_nil text))
        | cons a t => exact ⟨a, t, rfl⟩
      have hheadpos : 0 < hpair.2 := by
        rcases foldr_max_mem ((rulesScores text).map Prod.snd) with h0 | hmem
        · exact absurd h0 hmax
        · obtain ⟨q, hq, hq2⟩ := List.mem_map.mp hmem
          have := sortDesc_head_ge hsd q hq
          omega
      simp only [classifyWithRules]
      rw [if_neg hmax, hsd, hmaxeq]
      have htake : (hpair :: htail).take 3 = hpair :: htail.take 2 := rfl
      rw [htake]
      have hfil : (hpair :: htail.take 2).filter (fun p => 0 < p.2)
          = hpair :: (htail.take 2).filter (fun p => 0 < p.2) := by
        simp [List.filter_cons, hheadpos]
      rw [hfil]
      simp

/-- Closed instance of the rules-classifier characterization: the text
"zkqw" matches no keyword, every category scores 0, and the default
General Support result at confidence 0.5 is returned. -/
theorem rules_classifier_characterization_witness :
    classifyWithRules "zkqw" =
      { category := "General Support", confidence := 1/2, method := "rules",
        topPredictions := [("General Support", 1/2)] } :=
  (rules_classifier_characterization "zkqw").2.1 (by decide)

theorem slaHigh_adj_eq (o : Option ℚ) :
    (match o with
      | some h => if h ≤ 2 then 0 else if h ≤ 8 then 2 else 0
      | none => (0 : ℕ))
      = (match o with
      | some h => if 2 < h ∧ h ≤ 8 then 2 else 0
      | none => (0 : ℕ)) := by
  cases o with
  | none => rfl
  | some h =>
    show (if h ≤ 2 then 0 else if h ≤ 8 then 2 else 0)
      = (if 2 < h ∧ h ≤ 8 then 2 else 0)
    by_cases h2 : h ≤ 2
    · rw [if_pos h2, if_neg (by rintro ⟨hl, _⟩; linarith)]
    · rw [if_neg h2]
      by_cases h8 : h ≤ 8
      · rw [if_pos h8, if_pos ⟨by linarith, h8⟩]
      · rw [if_neg h8, if_neg (by rintro ⟨_, hr⟩; exact h8 hr)]

theorem priorityScores_ne_nil (title desc : String) (md : TicketMetadata) :
    priorityScores title desc md ≠ [] := by
  simp [priorityScores, priorityKeywords]

/-- C7: for every title, description and metadata, the priority scorer
sums keyword hits per bucket with weight 2 for a keyword occurring in the
lowercased title and 1 otherwise, adds 3 to high for a vip customer_tier,
2 to high for positive previous_escalations, 3 to urgent when sla_hours is
at most 2 and 2 to high when sla_hours lies in (2, 8]; all buckets at 0
give priority medium at confidence 0.6, otherwise a highest-scoring
bucket wins at confidence min(winning/total * 1.5, 1); in particular
sla_hours 1 with no priority keywords and neutral metadata yields urgent
at confidence 1. -/
theorem priority_scorer_characterization (title desc : String)
    (md : TicketMetadata) :
    priorityScores title desc md = priorityKeywords.map (fun pk =>
      (pk.1,
        (pk.2.map (fun kw =>
          if isInfixChars kw.data (lowerChars (title ++ " " ++ desc)) then
            (if isInfixChars kw.data (lowerChars title) then 2 else 1)
          else 0)).sum
        + (if pk.1 = "urgent" then
            (match md.sla_hours with
              | some h => if h ≤ 2 then 3 else 0
              | none => 0)
          else 0)
        + (if pk.1 = "high" then
            (if md.customer_tier = some "vip" then 3 else 0)
            + (if 0 < md.previous_escalations then 2 else 0)
            + (match md.sla_hours with
                | some h => if 2 < h ∧ h ≤ 8 then 2 else 0
                | none => 0)
          else 0)))
  ∧ ((∀ p ∈ priorityScores title desc md, p.2 = 0) →
      classifyPriority title desc md =
        { priority := "medium", confidence := 3/5,
          scores := priorityScores title desc md })
  ∧ ((∃ p ∈ priorityScores title desc md, p.2 ≠ 0) →
      ∃ best ∈ priorityScores title desc md,
        (∀ p ∈ priorityScores title desc md, p.2 ≤ best.2)
        ∧ (classifyPriority title desc md).priority = best.1
        ∧ (classifyPriority title desc md).confidence
            = min ((best.2 : ℚ)
                / (((priorityScores title desc md).map Prod.snd).sum : ℕ)
                * (3/2)) 1)
  ∧ ((∀ pk ∈ priorityKeywords,
        priKwScore (lowerChars title) (lowerChars (title ++ " " ++ desc)) pk.2
          = 0) →
      md.sla_hours = some 1 → md.customer_tier ≠ some "vip" →
      md.previous_escalations ≤ 0 →
      (classifyPriority title desc md).priority = "urgent"
      ∧ (classifyPriority title desc md).confidence = 1) := by
  refine ⟨?_, ?_, ?_, ?_⟩
  · simp only [priorityScores, List.map_map]
    apply List.map_congr_left
    intro pk hpk
    simp only [Function.comp]
    by_cases hu : pk.1 = "urgent"
    · have hh : pk.1 ≠ "high" := by rw [hu]; decide
      rw [if_pos hu, if_pos hu, if_neg hh]
      rw [priKwScore_eq_specSum]
      simp only [Prod.mk.injEq, true_and]
      omega
    · by_cases hh : pk.1 = "high"
      · rw [if_neg hu, if_pos hh, if_neg hu, if_pos hh]
        rw [priKwScore_eq_specSum, ← slaHigh_adj_eq]
        simp only [Prod.mk.injEq, true_and]
        omega
      · rw [if_neg hu, if_neg hh, if_neg hu, if_neg hh]
        rw [priKwScore_eq_specSum]
        simp
  · intro h
    have hz : (((priorityScores title desc md).map Prod.snd).foldr max 0) = 0 := by
      rw [foldr_max_eq_zero_iff]
      intro x hx
      obtain ⟨p, hp, rfl⟩ := List.mem_map.mp hx
      exact h p hp
    simp only [classifyPriority]
    rw [if_pos hz]
  · rintro ⟨p0, hp0, hp0ne⟩
    have hmax :
        ¬ (((priorityScores title desc md).map Prod.snd).foldr max 0) = 0 := by
      intro hz
      exact hp0ne ((foldr_max_eq_zero_iff _).mp hz p0.2
        (List.mem_map_of_mem Prod.snd hp0))
    obtain ⟨m, hm⟩ := argmaxFirst_isSome (priorityScores_ne_nil title desc md)
    have htot : 0 < ((priorityScores title desc md).map Prod.snd).sum := by
      rcases foldr_max_mem ((priorityScores title desc md).map Prod.snd) with
        h0 | hmem
      · exact absurd h0 hmax
      · have hle := List.single_le_sum
          (by intro x _; exact Nat.zero_le x) _ hmem
        omega
    have hmaxeq : max (((priorityScores title desc md).map Prod.snd).sum) 1
        = ((priorityScores title desc md).map Prod.snd).sum :=
      Nat.max_eq_left (by omega)
    refine ⟨m, argmaxFirst_mem hm, argmaxFirst_ge hm, ?_, ?_⟩
    · simp only [classifyPriority]
      rw [if_neg hmax, hm]
      rfl
    · simp only [classifyPriority]
      rw [if_neg hmax, hm, hmaxeq]
      rfl
  · intro hkw hsla htier hesc
    have hscores : priorityScores title desc md
        = [("urgent", 3), ("high", 0), ("medium", 0), ("low", 0)] := by
      simp only [priorityScores, priorityKeywords, List.map_cons, List.map_nil]
      rw [hkw ("urgent", _) (by simp [priorityKeywords]),
        hkw ("high", _) (by simp [priorityKeywords]),
        hkw ("medium", _) (by simp [priorityKeywords]),
        hkw ("low", _) (by simp [priorityKeywords])]
      rw [hsla]
      rw [if_neg htier, if_neg (by omega : ¬ 0 < md.previous_escalations)]
      norm_num
      decide
    simp only [classifyPriority]
    rw [hscores]
    norm_num [argmaxFirst]

/-- Closed instance of the priority-scorer characterization: sla_hours 1
with keyword-free text yields priority urgent at confidence 1. -/
theorem priority_scorer_characterization_witness :
    (classifyPriority "zk" "qw" ⟨none, 0, some 1⟩).priority = "urgent"
    ∧ (classifyPriority "zk" "qw" ⟨none, 0, some 1⟩).confidence = 1 :=
  (priority_scorer_characterization "zk" "qw" ⟨none, 0, some 1⟩).2.2.2
    (by decide) rfl (by decide) (by decide)

/-- C10: the escalation keyword check is plain substring containment on
the lowercased message text, not word-boundary matching: whenever the
sentiment and length conditions do not fire and some checked message
contains an escalation keyword anywhere inside it, even inside a longer
word, should_escalate reports a human-agent request. -/
theorem escalation_substring_triggers (c : ConversationState)
    (h1 : ¬ (c.overall_sentiment = "negative" ∧ c.sentiment_score < -(1/2)))
    (h2 : c.messages.length ≤ 10)
    (h3 : (c.messages.take 5).any (fun m =>
        escalationKeywords.any
          (fun kw => isInfixChars kw.data (lowerChars m))) = true) :
    shouldEscalate c = (true, "Customer requested human agent") := by
  simp only [shouldEscalate]
  rw [if_neg h1, if_neg (by omega : ¬ 10 < c.messages.length), if_pos h3]

/-- Closed instance of the substring escalation property: the message
contains person only inside the word personal and still escalates. -/
theorem escalation_substring_triggers_witness :
    shouldEscalate
        ⟨"neutral", 0, ["i need to update my personal details"]⟩
      = (true, "Customer requested human agent") :=
  escalation_substring_triggers
    ⟨"neutral", 0, ["i need to update my personal details"]⟩
    (by decide) (by decide) (by decide)

/-- C8 as amended: with fewer than 3 scores the trend is stable; with 3 or
more it compares the mean of the last 3 scores against the mean of the
scores before them when at least one such score exists and against 0.0
when none remain (exactly 3 scores total), using the 0.2 deadband. -/
theorem trend_characterization (scores : List ℚ) :
    (scores.length < 3 → conversationTrend scores = "stable")
  ∧ (3 ≤ scores.length →
      conversationTrend scores =
        (if ((scores.drop (scores.length - 3)).sum / 3 : ℚ) >
            (if scores.take (scores.length - 3) = [] then 0
             else (scores.take (scores.length - 3)).sum
                / ((scores.take (scores.length - 3)).length : ℚ)) + 1/5
         then "improving"
         else if ((scores.drop (scores.length - 3)).sum / 3 : ℚ) <
            (if scores.take (scores.length - 3) = [] then 0
             else (scores.take (scores.length - 3)).sum
                / ((scores.take (scores.length - 3)).length : ℚ)) - 1/5
         then "declining"
         else "stable")) := by
  constructor
  · intro h
    simp only [conversationTrend]
    rw [if_neg (by omega)]
  · intro h
    have hlen : (scores.take (scores.length - 3)).length = scores.length - 3 := by
      rw [List.length_take]
      omega
    have heq : ((scores.take (scores.length - 3)).sum
          / ((max (scores.length - 3) 1 : ℕ) : ℚ))
        = (if scores.take (scores.length - 3) = [] then 0
           else (scores.take (scores.length - 3)).sum
              / ((scores.take (scores.length - 3)).length : ℚ)) := by
      rcases Nat.eq_zero_or_pos (scores.length - 3) with h0 | h0
      · have hnil : scores.take (scores.length - 3) = [] := by
          rw [← List.length_eq_zero]
          omega
        rw [if_pos hnil, hnil]
        simp
      · have hne : ¬ scores.take (scores.length - 3) = [] := by
          intro he
          rw [he] at hlen
          simp at hlen
          omega
        rw [if_neg hne, hlen, Nat.max_eq_left (by omega)]
    simp only [conversationTrend]
    rw [if_pos h, heq]

/-- Closed instance of the trend characterization: two scores give a
stable trend. -/
theorem trend_characterization_witness :
    conversationTrend [0, 0] = "stable" :=
  (trend_characterization [0, 0]).1 (by decide)

theorem rules_zero_result (text : String)
    (h : ∀ p ∈ rulesScores text, p.2 = 0) :
    classifyWithRules text =
      { category := "General Support", confidence := 1/2, method := "rules",
        topPredictions := [("General Support", 1/2)] } := by
  have hz : (((rulesScores text).map Prod.snd).foldr max 0) = 0 := by
    rw [foldr_max_eq_zero_iff]
    intro x hx
    obtain ⟨p, hp, rfl⟩ := List.mem_map.mp hx
    exact h p hp
  simp only [classifyWithRules]
  rw [if_pos hz]

theorem upsert_ne_nil (k : String) (v : ℚ) (l : List (String × ℚ)) :
    upsert k v l ≠ [] := by
  cases l with
  | nil => simp [upsert]
  | cons p rest =>
    simp only [upsert]
    by_cases hp : p.1 = k
    · rw [if_pos hp]; simp
    · rw [if_neg hp]; simp

theorem foldl_upsert_ne_nil (comps : List (String × ℚ))
    (init : List (String × ℚ)) (h : init ≠ [] ∨ comps ≠ []) :
    comps.foldl (fun acc x => upsert x.1 x.2 acc) init ≠ [] := by
  induction comps generalizing init with
  | nil =>
    rcases h with h | h
    · exact h
    · exact absurd rfl h
  | cons x xs ih => exact ih _ (Or.inl (upsert_ne_nil _ _ _))

theorem ensembleScores_eq (bk : Backends) (text : String) :
    ensembleScores bk text
      = ((ensembleComponents bk text).map
          (fun comp => (comp.1, comp.2.1 * comp.2.2))).foldl
          (fun acc x => upsert x.1 x.2 acc) [] := by
  rw [ensembleScores, List.foldl_map]

theorem ensembleComponents_ne_nil (bk : Backends) (text : String) :
    ensembleComponents bk text ≠ [] := by
  simp [ensembleComponents]

theorem ensembleScores_ne_nil (bk : Backends) (text : String) :
    ensembleScores bk text ≠ [] := by
  rw [ensembleScores_eq]
  refine foldl_upsert_ne_nil _ _ (Or.inr ?_)
  simp [ensembleComponents_ne_nil bk text]

theorem ensembleScores_nodup (bk : Backends) (text : String) :
    ((ensembleScores bk text).map Prod.fst).Nodup := by
  rw [ensembleScores_eq]
  exact foldl_upsert_nodup _ _ (by simp)

theorem filter_key_sum (c : String) (l : List (String × ℚ)) :
    ((l.filter (fun x => x.1 == c)).map Prod.snd).sum
      = (l.map (fun x => if x.1 = c then x.2 else 0)).sum := by
  induction l with
  | nil => simp
  | cons p rest ih =>
    by_cases hp : p.1 = c
    · have hb : (p.1 == c) = true := by simpa using hp
      simp [List.filter_cons, hb, hp, ih]
    · have hb : (p.1 == c) = false := by simpa using hp
      simp [List.filter_cons, hb, hp, ih]

/-- Accumulated score of each category in the ensemble dict: the sum of
confidence times fixed weight over the available components predicting
that category. -/
theorem ensembleScores_get (bk : Backends) (text : String) (c : String) :
    dictGet c (ensembleScores bk text)
      = (if bk.bert.isSome then
          (if (classifyWithBert bk text).category = c then
            (classifyWithBert bk text).confidence * (3/5) else 0) else 0)
      + (if bk.trad.isSome then
          (if (classifyWithTraditional bk text).category = c then
            (classifyWithTraditional bk text).confidence * (3/10) else 0) else 0)
      + (if (classifyWithRules text).category = c then
          (classifyWithRules text).confidence * (1/10) else 0) := by
  rw [ensembleScores_eq, foldl_upsert_get, filter_key_sum, List.map_map]
  have hd : dictGet c [] = 0 := by simp [dictGet]
  rw [hd, zero_add]
  simp only [ensembleComponents, List.map_append, List.sum_append]
  cases hbk : bk.bert with
  | none =>
    cases hbt : bk.trad with
    | none => simp [Function.comp, mul_comm]
    | some g => simp [Function.comp, mul_comm]
  | some g =>
    cases hbt : bk.trad with
    | none => simp [Function.comp, mul_comm]
    | some g2 => simp [Function.comp, mul_comm]

theorem bert_category_mem (bk : Backends) (text : String)
    (hb : OracleLabels bk.bert defaultCategories) :
    (classifyWithBert bk text).category ∈ defaultCategories := by
  rw [classifyWithBert]
  split
  · exact rules_category_mem text
  · rename_i g hbk
    split
    · exact rules_category_mem text
    · rename_i ranked hg
      split
      · exact rules_category_mem text
      · rename_i lbl sc rest
        exact hb g hbk text _ hg (lbl, sc) (List.mem_cons_self _ _)

theorem trad_category_mem (bk : Backends) (text : String)
    (ht : OracleLabels bk.trad defaultCategories) :
    (classifyWithTraditional bk text).category ∈ defaultCategories := by
  rw [classifyWithTraditional]
  split
  · exact rules_category_mem text
  · rename_i g hbt
    split
    · exact rules_category_mem text
    · rename_i probs hg
      split
      · exact rules_category_mem text
      · rename_i best hargm
        exact ht g hbt text _ hg best (argmaxFirst_mem hargm)

theorem ensemble_category_mem (bk : Backends) (text : String)
    (hb : OracleLabels bk.bert defaultCategories)
    (ht : OracleLabels bk.trad defaultCategories) :
    (classifyWithEnsemble bk text).category ∈ defaultCategories := by
  rw [classifyWithEnsemble]
  cases hsd : sortDesc (ensembleScores bk text) with
  | nil => exact rules_category_mem text
  | cons w t =>
    have hw : w ∈ ensembleScores bk text :=
      (mem_sortDesc w _).mp (hsd ▸ List.mem_cons_self w t)
    have hw2 : w ∈ ((ensembleComponents bk text).map
        (fun comp => (comp.1, comp.2.1 * comp.2.2))).foldl
        (fun acc x => upsert x.1 x.2 acc) [] := by
      rw [← ensembleScores_eq]
      exact hw
    have hkeys := mem_foldl_upsert_keys _ _ _ hw2
    simp only [List.map_nil, List.not_mem_nil, false_or, List.map_map] at hkeys
    have hcats : ∀ s ∈ (ensembleComponents bk text).map
        ((fun comp => (comp.1, comp.2.1 * comp.2.2)) · |>.1), s ∈ defaultCategories := by
      intro s hs
      simp only [ensembleComponents, List.map_append, List.mem_append] at hs
      rcases hs with (hs | hs) | hs
      · cases hbk : bk.bert with
        | none => rw [hbk] at hs; simp at hs
        | some g =>
          rw [hbk] at hs
          simp only [List.map_cons, List.map_nil, List.mem_singleton] at hs
          rw [hs]
          exact bert_category_mem bk text hb
      · cases hbt : bk.trad with
        | none => rw [hbt] at hs; simp at hs
        | some g =>
          rw [hbt] at hs
          simp only [List.map_cons, List.map_nil, List.mem_singleton] at hs
          rw [hs]
          exact trad_category_mem bk text ht
      · simp only [List.map_cons, List.map_nil, List.mem_singleton] at hs
        rw [hs]
        exact rules_category_mem text
    exact hcats w.1 hkeys

theorem category_mem (bk : Backends) (text : String)
    (hb : OracleLabels bk.bert defaultCategories)
    (ht : OracleLabels bk.trad defaultCategories) :
    (classifyCategory bk text).category ∈ defaultCategories := by
  rw [classifyCategory]
  split
  · exact ensemble_category_mem bk text hb ht
  · split
    · exact bert_category_mem bk text hb
    · split
      · exact trad_category_mem bk text ht
      · exact rules_category_mem text

theorem classify_category_total_failure (bk : Backends) (text : String)
    (hbf : OracleFails bk.bert text) (htf : OracleFails bk.trad text)
    (hz : ∀ p ∈ rulesScores text, p.2 = 0) :
    (classifyCategory bk text).category = "General Support"
    ∧ (classifyCategory bk text).confidence = 1/2 := by
  have hrules := rules_zero_result text hz
  rcases hbf with hbk | ⟨g, hbk, e, hge⟩
  · rcases htf with hbt | ⟨g2, hbt, e2, hge2⟩
    · have hcat : classifyCategory bk text = classifyWithRules text := by
        rw [classifyCategory, hbk, hbt]
        rfl
      rw [hcat, hrules]
      exact ⟨rfl, rfl⟩
    · have hcat : classifyCategory bk text = classifyWithTraditional bk text := by
        rw [classifyCategory, hbk, hbt]
        rfl
      have htr : classifyWithTraditional bk text = classifyWithRules text := by
        simp only [classifyWithTraditional, hbt, hge2]
      rw [hcat, htr, hrules]
      exact ⟨rfl, rfl⟩
  · rcases htf with hbt | ⟨g2, hbt, e2, hge2⟩
    · have hcat : classifyCategory bk text = classifyWithBert bk text := by
        rw [classifyCategory, hbk, hbt]
        rfl
      have hbr : classifyWithBert bk text = classifyWithRules text := by
        simp only [classifyWithBert, hbk, hge]
      rw [hcat, hbr, hrules]
      exact ⟨rfl, rfl⟩
    · have hcat : classifyCategory bk text = classifyWithEnsemble bk text := by
        rw [classifyCategory, hbk, hbt]
        rfl
      have hbr : classifyWithBert bk text = classifyWithRules text := by
        simp only [classifyWithBert, hbk, hge]
      have htr : classifyWithTraditional bk text = classifyWithRules text := by
        simp only [classifyWithTraditional, hbt, hge2]
      have hcomp : ensembleComponents bk text =
          [("General Support", 1/2, (3 : ℚ)/5),
           ("General Support", 1/2, (3 : ℚ)/10),
           ("General Support", 1/2, (1 : ℚ)/10)] := by
        simp only [ensembleComponents, hbk, hbt, hbr, htr, hrules]
        rfl
      have hscores : ensembleScores bk text
          = [("General Support",
              1/2 * ((3 : ℚ)/5) + 1/2 * ((3 : ℚ)/10) + 1/2 * ((1 : ℚ)/10))] := by
        rw [ensembleScores, hcomp]
        simp [upsert]
      have hsort : sortDesc (ensembleScores bk text)
          = [("General Support",
              1/2 * ((3 : ℚ)/5) + 1/2 * ((3 : ℚ)/10) + 1/2 * ((1 : ℚ)/10))] := by
        rw [hscores]
        rfl
      have hens : classifyWithEnsemble bk text =
          { category := "General Support",
            confidence :=
              1/2 * ((3 : ℚ)/5) + 1/2 * ((3 : ℚ)/10) + 1/2 * ((1 : ℚ)/10),
            method := "ensemble",
            topPredictions := [("General Support",
              1/2 * ((3 : ℚ)/5) + 1/2 * ((3 : ℚ)/10) + 1/2 * ((1 : ℚ)/10))] } := by
        simp only [classifyWithEnsemble]
        rw [hsort]
        rfl
      refine ⟨by rw [hcat, hens], ?_⟩
      rw [hcat, hens]
      show 1/2 * ((3 : ℚ)/5) + 1/2 * ((3 : ℚ)/10) + 1/2 * ((1 : ℚ)/10) = 1/2
      norm_num

/-- C1 as amended: whenever every label either backend can return lies in
the configured category list (automatic for the zero-shot backend, an
extra assumption on the trained labels of the statistical one),
classify_ticket returns a category from the configured list over every
availability and failure state; and when both backends are absent or
failing (in any combination) on keyword-free text the result is General
Support at confidence 0.5. -/
theorem classify_ticket_category_in_enum (bk : Backends)
    (title desc : String) (md : TicketMetadata)
    (hb : OracleLabels bk.bert defaultCategories)
    (ht : OracleLabels bk.trad defaultCategories) :
    (classifyTicket bk title desc md).category ∈ defaultCategories
  ∧ (OracleFails bk.bert (title ++ ". " ++ desc) →
      OracleFails bk.trad (title ++ ". " ++ desc) →
      (∀ p ∈ rulesScores (title ++ ". " ++ desc), p.2 = 0) →
      (classifyTicket bk title desc md).category = "General Support"
      ∧ (classifyTicket bk title desc md).category_confidence = 1/2) := by
  constructor
  · exact category_mem bk (title ++ ". " ++ desc) hb ht
  · intro hbf htf hz
    have h := classify_category_total_failure bk (title ++ ". " ++ desc) hbf htf hz
    exact ⟨h.1, h.2⟩

/-- Closed instance of the category-enum property: with both backends
present but raising on every call and keyword-free text, the result is
the General Support default at confidence 0.5. -/
theorem classify_ticket_category_in_enum_witness :
    (classifyTicket
        ⟨some fun _ => Except.error (), some fun _ => Except.error ()⟩
        "qk" "zw" ⟨none, 0, none⟩).category = "General Support"
    ∧ (classifyTicket
        ⟨some fun _ => Except.error (), some fun _ => Except.error ()⟩
        "qk" "zw" ⟨none, 0, none⟩).category_confidence = 1/2 :=
  (classify_ticket_category_in_enum
    ⟨some fun _ => Except.error (), some fun _ => Except.error ()⟩
    "qk" "zw" ⟨none, 0, none⟩
    (by intro g hg t l hok p hp
        injection hg with hg2
        subst hg2
        exact Except.noConfusion hok)
    (by intro g hg t l hok p hp
        injection hg with hg2
        subst hg2
        exact Except.noConfusion hok)).2
    (Or.inr ⟨_, rfl, (), rfl⟩) (Or.inr ⟨_, rfl, (), rfl⟩) (by decide)

/-- C4: for every availability configuration and text, the ensemble
combiner reports method ensemble, accumulates confidence times fixed
weight (0.6 zero-shot, 0.3 statistical, 0.1 rules) per predicted category
over whichever components are available without rescaling, returns a
category of maximal accumulated score, reports that accumulated score
itself as the confidence, and lists the top 3 categories by accumulated
score. -/
theorem ensemble_combiner_characterization (bk : Backends) (text : String) :
    (classifyWithEnsemble bk text).method = "ensemble"
  ∧ (∀ c, dictGet c (ensembleScores bk text)
      = (if bk.bert.isSome then
          (if (classifyWithBert bk text).category = c then
            (classifyWithBert bk text).confidence * (3/5) else 0) else 0)
      + (if bk.trad.isSome then
          (if (classifyWithTraditional bk text).category = c then
            (classifyWithTraditional bk text).confidence * (3/10) else 0) else 0)
      + (if (classifyWithRules text).category = c then
          (classifyWithRules text).confidence * (1/10) else 0))
  ∧ (∃ w ∈ ensembleScores bk text,
      (∀ p ∈ ensembleScores bk text, p.2 ≤ w.2)
      ∧ (classifyWithEnsemble bk text).category = w.1
      ∧ (classifyWithEnsemble bk text).confidence = w.2)
  ∧ (classifyWithEnsemble bk text).confidence
      = dictGet (classifyWithEnsemble bk text).category (ensembleScores bk text)
  ∧ (classifyWithEnsemble bk text).topPredictions
      = (sortDesc (ensembleScores bk text)).take 3 := by
  obtain ⟨wc, wv, t, hsd⟩ :
      ∃ wc wv t, sortDesc (ensembleScores bk text) = (wc, wv) :: t := by
    cases hs : sortDesc (ensembleScores bk text) with
    | nil => exact absurd hs (sortDesc_ne_nil (ensembleScores_ne_nil bk text))
    | cons a b => exact ⟨a.1, a.2, b, rfl⟩
  have hres : classifyWithEnsemble bk text =
      { category := wc, confidence := wv, method := "ensemble",
        topPredictions := ((wc, wv) :: t).take 3 } := by
    simp only [classifyWithEnsemble]
    rw [hsd]
  have hwmem : (wc, wv) ∈ ensembleScores bk text :=
    (mem_sortDesc _ _).mp (hsd ▸ List.mem_cons_self _ t)
  refine ⟨by rw [hres], fun c => ensembleScores_get bk text c,
    ⟨(wc, wv), hwmem, sortDesc_head_ge hsd, by rw [hres], by rw [hres]⟩,
    ?_, by rw [hres, hsd]⟩
  rw [hres]
  exact (dictGet_of_mem_nodup (ensembleScores_nodup bk text) hwmem).symm

/-- Closed instance of the ensemble characterization: with both models
absent only the rules component contributes, at weight 0.1. -/
theorem ensemble_combiner_characterization_witness :
    (classifyWithEnsemble ⟨none, none⟩ "kqz").method = "ensemble"
  ∧ dictGet "General Support" (ensembleScores ⟨none, none⟩ "kqz")
      = (1/2) * (1/10) := by
  constructor
  · exact (ensemble_combiner_characterization ⟨none, none⟩ "kqz").1
  · have h := (ensemble_combiner_characterization ⟨none, none⟩ "kqz").2.1
      "General Support"
    rw [h]
    have hr : classifyWithRules "kqz" =
        { category := "General Support", confidence := 1/2, method := "rules",
          topPredictions := [("General Support", 1/2)] } := rfl
    rw [hr]
    simp

theorem bert_confidence_bounds (bk : Backends) (text : String)
    (hb : OracleProbBounds bk.bert) :
    0 ≤ (classifyWithBert bk text).confidence
      ∧ (classifyWithBert bk text).confidence ≤ 1 := by
  rw [classifyWithBert]
  split
  · exact rules_confidence_bounds text
  · rename_i g hbk
    split
    · exact rules_confidence_bounds text
    · rename_i ranked hg
      split
      · exact rules_confidence_bounds text
      · rename_i lbl sc rest
        exact hb g hbk text _ hg (lbl, sc) (List.mem_cons_self _ _)

theorem trad_confidence_bounds (bk : Backends) (text : String)
    (ht : OracleProbBounds bk.trad) :
    0 ≤ (classifyWithTraditional bk text).confidence
      ∧ (classifyWithTraditional bk text).confidence ≤ 1 := by
  rw [classifyWithTraditional]
  split
  · exact rules_confidence_bounds text
  · rename_i g hbt
    split
    · exact rules_confidence_bounds text
    · rename_i probs hg
      split
      · exact rules_confidence_bounds text
      · rename_i best hargm
        exact ht g hbt text _ hg best (argmaxFirst_mem hargm)

theorem ensemble_confidence_bounds (bk : Backends) (text : String)
    (hb : OracleProbBounds bk.bert) (ht : OracleProbBounds bk.trad) :
    0 ≤ (classifyWithEnsemble bk text).confidence
      ∧ (classifyWithEnsemble bk text).confidence ≤ 1 := by
  obtain ⟨wc, wv, t, hsd⟩ :
      ∃ wc wv t, sortDesc (ensembleScores bk text) = (wc, wv) :: t := by
    cases hs : sortDesc (ensembleScores bk text) with
    | nil => exact absurd hs (sortDesc_ne_nil (ensembleScores_ne_nil bk text))
    | cons a b => exact ⟨a.1, a.2, b, rfl⟩
  have hres : (classifyWithEnsemble bk text).confidence = wv := by
    simp only [classifyWithEnsemble]
    rw [hsd]
  have hwmem : (wc, wv) ∈ ensembleScores bk text :=
    (mem_sortDesc _ _).mp (hsd ▸ List.mem_cons_self _ t)
  have hwv : wv = dictGet wc (ensembleScores bk text) :=
    (dictGet_of_mem_nodup (ensembleScores_nodup bk text) hwmem).symm
  have hget := ensembleScores_get bk text wc
  have hbb := bert_confidence_bounds bk text hb
  have htb := trad_confidence_bounds bk text ht
  have hrb := rules_confidence_bounds text
  have hpart1 : 0 ≤ (if bk.bert.isSome then
      (if (classifyWithBert bk text).category = wc then
        (classifyWithBert bk text).confidence * (3/5) else 0) else 0)
      ∧ (if bk.bert.isSome then
      (if (classifyWithBert bk text).category = wc then
        (classifyWithBert bk text).confidence * (3/5) else 0) else 0) ≤ 3/5 := by
    split_ifs <;> constructor <;> nlinarith [hbb.1, hbb.2]
  have hpart2 : 0 ≤ (if bk.trad.isSome then
      (if (classifyWithTraditional bk text).category = wc then
        (classifyWithTraditional bk text).confidence * (3/10) else 0) else 0)
      ∧ (if bk.trad.isSome then
      (if (classifyWithTraditional bk text).category = wc then
        (classifyWithTraditional bk text).confidence * (3/10) else 0) else 0)
        ≤ 3/10 := by
    split_ifs <;> constructor <;> nlinarith [htb.1, htb.2]
  have hpart3 : 0 ≤ (if (classifyWithRules text).category = wc then
      (classifyWithRules text).confidence * (1/10) else 0)
      ∧ (if (classifyWithRules text).category = wc then
      (classifyWithRules text).confidence * (1/10) else 0) ≤ 1/10 := by
    split_ifs <;> constructor <;> nlinarith [hrb.1, hrb.2]
  rw [hres, hwv, hget]
  constructor
  · linarith [hpart1.1, hpart2.1, hpart3.1]
  · linarith [hpart1.2, hpart2.2, hpart3.2]

theorem priority_confidence_bounds (title desc : String) (md : TicketMetadata) :
    0 ≤ (classifyPriority title desc md).confidence
      ∧ (classifyPriority title desc md).confidence ≤ 1 := by
  simp only [classifyPriority]
  split
  · norm_num
  · constructor
    · exact le_min (by positivity) (by norm_num)
    · exact min_le_right _ _

theorem transformer_score_bounds (sbk : SentBackends) (stext : String)
    (hs : SentOracleBounds sbk) :
    -1 ≤ (analyzeWithTransformer sbk stext).score
      ∧ (analyzeWithTransformer sbk stext).score ≤ 1 := by
  rw [analyzeWithTransformer]
  split
  · norm_num
  · rename_i g hg
    split
    · norm_num
    · rename_i raw prob hok
      obtain ⟨h0, h1⟩ := hs.1 g hg stext (raw, prob) hok
      simp only []
      split_ifs <;> constructor <;> simp at h0 h1 ⊢ <;> linarith

theorem vader_score_bounds (sbk : SentBackends) (stext : String)
    (hs : SentOracleBounds sbk) :
    -1 ≤ (analyzeWithVader sbk stext).score
      ∧ (analyzeWithVader sbk stext).score ≤ 1 := by
  rw [analyzeWithVader]
  split
  · norm_num
  · rename_i g hg
    split
    · norm_num
    · rename_i q hok
      exact hs.2.1 g hg stext q hok

theorem textblob_score_bounds (sbk : SentBackends) (stext : String)
    (hs : SentOracleBounds sbk) :
    -1 ≤ (analyzeWithTextblob sbk stext).score
      ∧ (analyzeWithTextblob sbk stext).score ≤ 1 := by
  rw [analyzeWithTextblob]
  split
  · norm_num
  · split
    · norm_num
    · rename_i q hok
      exact hs.2.2 stext q hok

theorem sentiment_confidence_bounds (sbk : SentBackends) (stext : String)
    (hs : SentOracleBounds sbk) :
    0 ≤ (ensembleAnalysis sbk stext).confidence
      ∧ (ensembleAnalysis sbk stext).confidence ≤ 1 := by
  have hT := transformer_score_bounds sbk stext hs
  have hA := vader_score_bounds sbk stext hs
  have hB := textblob_score_bounds sbk stext hs
  have hscore : (ensembleAnalysis sbk stext).score =
      (1/2) * (analyzeWithTransformer sbk stext).score
      + (3/10) * (analyzeWithVader sbk stext).score
      + (1/5) * (analyzeWithTextblob sbk stext).score := by
    simp only [ensembleAnalysis, List.zip_cons_cons, List.zip_nil_right,
      List.map_cons, List.map_nil, List.sum_cons, List.sum_nil]
    ring
  have hconf : (ensembleAnalysis sbk stext).confidence
      = |(ensembleAnalysis sbk stext).score| := rfl
  rw [hconf, hscore]
  constructor
  · exact abs_nonneg _
  · rw [abs_le]
    constructor <;> linarith [hT.1, hT.2, hA.1, hA.2, hB.1, hB.2]

/-- C9: the accumulated ensemble confidence can never strictly exceed 1
when every component confidence lies in [0, 1]: the weights 0.6, 0.3 and
0.1 sum to 1, so the claimed exceeding configuration does not exist. -/
theorem ensemble_confidence_cannot_exceed_one :
    ¬ ∃ (bk : Backends) (text : String),
      OracleProbBounds bk.bert ∧ OracleProbBounds bk.trad
      ∧ 1 < (classifyWithEnsemble bk text).confidence := by
  rintro ⟨bk, text, hb, ht, hgt⟩
  exact absurd hgt (not_lt.mpr (ensemble_confidence_bounds bk text hb ht).2)

/-- C9 as amended: with component confidences in [0, 1], the ensemble
confidence lies in [0, 1] as well (reaching at most 1, never exceeding
it), and the rules, zero-shot, statistical, priority and sentiment
confidences all lie in [0, 1]. -/
theorem confidence_ranges (bk : Backends) (sbk : SentBackends)
    (title desc text stext : String) (md : TicketMetadata)
    (hb : OracleProbBounds bk.bert) (ht : OracleProbBounds bk.trad)
    (hs : SentOracleBounds sbk) :
    (0 ≤ (classifyWithEnsemble bk text).confidence
      ∧ (classifyWithEnsemble bk text).confidence ≤ 1)
  ∧ (0 ≤ (classifyWithRules text).confidence
      ∧ (classifyWithRules text).confidence ≤ 1)
  ∧ (0 ≤ (classifyWithBert bk text).confidence
      ∧ (classifyWithBert bk text).confidence ≤ 1)
  ∧ (0 ≤ (classifyWithTraditional bk text).confidence
      ∧ (classifyWithTraditional bk text).confidence ≤ 1)
  ∧ (0 ≤ (classifyPriority title desc md).confidence
      ∧ (classifyPriority title desc md).confidence ≤ 1)
  ∧ (0 ≤ (ensembleAnalysis sbk stext).confidence
      ∧ (ensembleAnalysis sbk stext).confidence ≤ 1) :=
  ⟨ensemble_confidence_bounds bk text hb ht,
   rules_confidence_bounds text,
   bert_confidence_bounds bk text hb,
   trad_confidence_bounds bk text ht,
   priority_confidence_bounds title desc md,
   sentiment_confidence_bounds sbk stext hs⟩

/-- Closed instance of the confidence ranges: with every backend absent
the ensemble confidence is still at most 1. -/
theorem confidence_ranges_witness :
    (classifyWithEnsemble ⟨none, none⟩ "wq").confidence ≤ 1 :=
  (confidence_ranges ⟨none, none⟩
    ⟨none, none, false, fun _ => Except.error ()⟩ "a" "b" "wq" "c"
    ⟨none, 0, none⟩
    (fun _ h => Option.noConfusion h) (fun _ h => Option.noConfusion h)
    ⟨fun _ h => Option.noConfusion h, fun _ h => Option.noConfusion h,
      fun _ _ h => Except.noConfusion h⟩).1.2

end AiSupport
